import Mathlib

/-!
Verification development for the docling document Q&A platform.

The ingestion pipeline (extraction, chunking, embedding, retrieval) is
specified in spec.md and declared in src/TECHNICAL_DOCUMENTATION.md and
src/PROJECT_ANALYSIS.md; its implementation is not part of this repository
snapshot, so those components are modelled from the specification text.
The frontend (Next.js/TypeScript under src/frontend and the documents page
source) is embedded directly from the code.
-/

namespace Docling

/-! ## Tokenizer Adapter and Chunker (spec §4.2)

Text is represented as its token sequence; the Tokenizer Adapter measures
size as the number of tokens. -/

/-- a text, represented as the sequence of tokens the Tokenizer Adapter
produces for it -/
abbrev Text := List String

/-- Modelled from the spec: the Tokenizer Adapter measures text size in
tokens. -/
def token_count (t : Text) : Nat := t.length

/-- a token that ends a sentence (used to locate sentence boundaries for
the recursive split) -/
def sentenceEnd (w : String) : Bool := w.endsWith "."

/-- position (in tokens, counted from the front of `u`) of the last
sentence boundary at or below `lim`; `0` when there is none -/
def lastBoundaryLe : Text → Nat → Nat
  | [], _ => 0
  | _ :: _, 0 => 0
  | w :: ws, n + 1 =>
    let r := lastBoundaryLe ws n
    if 0 < r then r + 1 else if sentenceEnd w then 1 else 0

theorem lastBoundaryLe_le : ∀ (u : Text) (n : Nat), lastBoundaryLe u n ≤ n := by
  intro u
  induction u with
  | nil => intro n; simp [lastBoundaryLe]
  | cons w ws ih =>
    intro n
    cases n with
    | zero => simp [lastBoundaryLe]
    | succ m =>
      simp only [lastBoundaryLe]
      have h := ih m
      split
      · omega
      · split <;> omega

/-- Modelled from the spec: the split point for an oversized unit is the
nearest sentence boundary below the token limit; when no boundary exists the
unit is hard-truncated at the limit itself.  The limit is clamped to at
least `1` so that the split always makes progress (the real budget is a
provider ceiling of several thousand tokens, so the clamp never fires). -/
def splitPoint (maxTok : Nat) (u : Text) : Nat :=
  let b := lastBoundaryLe u (max maxTok 1)
  if b = 0 then max maxTok 1 else b

theorem splitPoint_pos (maxTok : Nat) (u : Text) : 1 ≤ splitPoint maxTok u := by
  unfold splitPoint
  dsimp only
  split <;> omega

theorem splitPoint_le (maxTok : Nat) (u : Text) : splitPoint maxTok u ≤ max maxTok 1 := by
  unfold splitPoint
  have h := lastBoundaryLe_le u (max maxTok 1)
  dsimp only
  split <;> omega

/-- Modelled from the spec: `EmbeddingService.validate_and_split_chunk`
(declared in src/TECHNICAL_DOCUMENTATION.md, implementation not in this
snapshot) — if a unit exceeds the maximum token budget, recursively split at
the nearest sentence boundary below the limit, hard-truncating when no
boundary exists. -/
def validate_and_split_chunk (maxTok : Nat) (u : Text) : List Text :=
  if _h : u.length ≤ maxTok then [u]
  else
    u.take (splitPoint maxTok u) :: validate_and_split_chunk maxTok (u.drop (splitPoint maxTok u))
termination_by u.length
decreasing_by
  simp only [List.length_drop]
  have h1 := splitPoint_pos maxTok u
  omega

theorem validate_and_split_chunk_bound (maxTok : Nat) (hm : 0 < maxTok) :
    ∀ (n : Nat) (u : Text), u.length ≤ n →
      ∀ c ∈ validate_and_split_chunk maxTok u, token_count c ≤ maxTok := by
  intro n
  induction n with
  | zero =>
    intro u hu c hc
    have hu0 : u.length = 0 := Nat.le_zero.mp hu
    rw [validate_and_split_chunk] at hc
    simp only [hu0] at hc
    simp only [Nat.zero_le, dite_true] at hc
    rcases List.mem_singleton.mp hc with rfl
    simpa [token_count] using Nat.le_of_eq hu0 |>.trans (Nat.zero_le maxTok)
  | succ m ih =>
    intro u hu c hc
    rw [validate_and_split_chunk] at hc
    by_cases hle : u.length ≤ maxTok
    · simp only [hle, dite_true] at hc
      rcases List.mem_singleton.mp hc with rfl
      simpa [token_count] using hle
    · simp only [hle, dite_false] at hc
      rcases List.mem_cons.mp hc with rfl | hmem
      · have h1 := splitPoint_le maxTok u
        have hmax : max maxTok 1 = maxTok := by omega
        simp only [token_count, List.length_take]
        omega
      · refine ih (u.drop (splitPoint maxTok u)) ?_ c hmem
        have h1 := splitPoint_pos maxTok u
        simp only [List.length_drop]
        omega

/-- Modelled from the spec: merge adjacent units smaller than the minimum
viable chunk size, preserving order, up to the maximum budget. -/
def merge_small (minTok maxTok : Nat) : List Text → List Text
  | [] => []
  | [u] => [u]
  | u :: v :: rest =>
    if u.length < minTok ∧ u.length + v.length ≤ maxTok then
      merge_small minTok maxTok ((u ++ v) :: rest)
    else
      u :: merge_small minTok maxTok (v :: rest)
termination_by l => l.length
decreasing_by
  · simp
  · simp

theorem merge_small_bound (minTok maxTok : Nat) :
    ∀ (n : Nat) (l : List Text), l.length ≤ n →
      (∀ u ∈ l, u.length ≤ maxTok) →
      ∀ c ∈ merge_small minTok maxTok l, c.length ≤ maxTok := by
  intro n
  induction n with
  | zero =>
    intro l hl _ c hc
    have : l = [] := List.length_eq_zero.mp (Nat.le_zero.mp hl)
    subst this
    simp [merge_small] at hc
  | succ m ih =>
    intro l hl hall c hc
    match l with
    | [] => simp [merge_small] at hc
    | [u] =>
      simp only [merge_small, List.mem_singleton] at hc
      subst hc
      exact hall c (by simp)
    | u :: v :: rest =>
      rw [merge_small] at hc
      by_cases hg : u.length < minTok ∧ u.length + v.length ≤ maxTok
      · simp only [hg, if_true] at hc
        refine ih ((u ++ v) :: rest) ?_ ?_ c hc
        · simp at hl ⊢; omega
        · intro w hw
          rcases List.mem_cons.mp hw with rfl | hw2
          · simpa using hg.2
          · exact hall w (by simp [hw2])
      · simp only [hg, if_false] at hc
        rcases List.mem_cons.mp hc with rfl | hmem
        · exact hall c (by simp)
        · refine ih (v :: rest) ?_ ?_ c hmem
          · simp at hl ⊢; omega
          · intro w hw
            exact hall w (List.mem_cons_of_mem u hw)

/-- Modelled from the spec: the structural pass splits the text along
natural document boundaries; the structural hints give the token lengths of
the successive structural units. -/
def structural_split : List Nat → Text → List Text
  | [], t => [t]
  | p :: ps, t => t.take p :: structural_split ps (t.drop p)

/-- a chunk: text, stable zero-based ordinal, token count (spec §3) -/
structure Chunk where
  text : Text
  ordinal : Nat
  tokenCount : Nat
  deriving Repr, DecidableEq

/-- assign contiguous ordinals starting at `i` to a list of chunk texts -/
def withOrdinals : Nat → List Text → List Chunk
  | _, [] => []
  | i, t :: ts => ⟨t, i, token_count t⟩ :: withOrdinals (i + 1) ts

/-- Modelled from the spec: the Chunker contract
`chunk(text, structural_hints)` — structural pass, token-bounding pass,
merge pass, then ordinal assignment. -/
def chunk (text : Text) (structural_hints : List Nat) (minTok maxTok : Nat) :
    List Chunk :=
  withOrdinals 0
    (merge_small minTok maxTok
      (((structural_split structural_hints text).map (validate_and_split_chunk maxTok)).flatten))

theorem mem_withOrdinals_text :
    ∀ (ts : List Text) (i : Nat) (c : Chunk), c ∈ withOrdinals i ts → c.text ∈ ts := by
  intro ts
  induction ts with
  | nil => intro i c hc; simp [withOrdinals] at hc
  | cons t ts ih =>
    intro i c hc
    rcases List.mem_cons.mp hc with rfl | hmem
    · simp
    · exact List.mem_cons_of_mem t (ih (i + 1) c hmem)

theorem withOrdinals_map_ordinal :
    ∀ (ts : List Text) (i : Nat),
      (withOrdinals i ts).map Chunk.ordinal = List.range' i ts.length := by
  intro ts
  induction ts with
  | nil => intro i; simp [withOrdinals]
  | cons t ts ih =>
    intro i
    simp [withOrdinals, List.range'_succ, ih (i + 1)]

theorem withOrdinals_length :
    ∀ (ts : List Text) (i : Nat), (withOrdinals i ts).length = ts.length := by
  intro ts
  induction ts with
  | nil => intro i; simp [withOrdinals]
  | cons t ts ih => intro i; simp [withOrdinals, ih (i + 1)]

theorem chunk_text_mem_units (text : Text) (hints : List Nat) (minTok maxTok : Nat)
    (c : Chunk) (hc : c ∈ chunk text hints minTok maxTok) :
    c.text ∈ merge_small minTok maxTok
      (((structural_split hints text).map (validate_and_split_chunk maxTok)).flatten) :=
  mem_withOrdinals_text _ 0 c hc

/-- Claim C2: every chunk produced by the Chunker satisfies
token_count(chunk.text) ≤ max_chunk_tokens; structural units above the
budget are recursively split at sentence boundaries until each piece is
within the limit. -/
theorem C2_chunk_token_bound (text : Text) (hints : List Nat) (minTok maxTok : Nat)
    (hm : 0 < maxTok) (c : Chunk) (hc : c ∈ chunk text hints minTok maxTok) :
    token_count c.text ≤ maxTok := by
  have htext := chunk_text_mem_units text hints minTok maxTok c hc
  refine merge_small_bound minTok maxTok _ _ le_rfl ?_ c.text htext
  intro u hu
  rcases List.mem_flatten.mp hu with ⟨pieces, hpieces, hu2⟩
  rcases List.mem_map.mp hpieces with ⟨unit, _hunit, rfl⟩
  exact validate_and_split_chunk_bound maxTok hm unit.length unit le_rfl u hu2

unseal validate_and_split_chunk merge_small in
/-- Claim C2 witness: a concrete chunking run at budget 2 in which every
chunk is within the budget. -/
theorem C2_chunk_token_bound_witness :
    0 < 2 ∧ (⟨["a", "b."], 0, 2⟩ : Chunk) ∈ chunk ["a", "b.", "c"] [2] 1 2 ∧
      token_count (Chunk.text ⟨["a", "b."], 0, 2⟩) ≤ 2 :=
  ⟨by decide, by decide,
    C2_chunk_token_bound ["a", "b.", "c"] [2] 1 2 (by decide) ⟨["a", "b."], 0, 2⟩ (by decide)⟩

/-- Claim C8: the ordinal indices of the chunks produced by a chunking run
are contiguous integers starting at 0, in output order. -/
theorem C8_chunk_ordinals_contiguous (text : Text) (hints : List Nat) (minTok maxTok : Nat) :
    (chunk text hints minTok maxTok).map Chunk.ordinal
      = List.range (chunk text hints minTok maxTok).length := by
  unfold chunk
  rw [withOrdinals_map_ordinal, withOrdinals_length, List.range_eq_range']

/-! ## Embedding Pipeline: checkpointed, resumable run (spec §4.3) -/

/-- state of a document embedding run: the persisted embedding store for the
active provider (chunk ordinal, vector identifier) and the
ProcessingCheckpoint (last successfully embedded chunk ordinal, `none`
before the first success) -/
structure RunState where
  store : List (Nat × Nat)
  checkpoint : Option Nat
  deriving Repr, DecidableEq

/-- Modelled from the spec: re-embedding replaces, never duplicates — an
embedding write is an upsert keyed by chunk ordinal. -/
def upsert (s : List (Nat × Nat)) (i v : Nat) : List (Nat × Nat) :=
  if s.any (fun p => p.1 == i) then s.map (fun p => if p.1 == i then (i, v) else p)
  else s ++ [(i, v)]

/-- Modelled from the spec: one successful chunk embedding — the embedding
write and the checkpoint advance are persisted atomically. -/
def embedStep (f : Nat → Nat) (st : RunState) (i : Nat) : RunState :=
  { store := upsert st.store i (f i), checkpoint := some i }

/-- Modelled from the spec: on resume=true processing begins at
checkpoint.last_ordinal + 1; otherwise at ordinal 0. -/
def startIndex (resume : Bool) (cp : Option Nat) : Nat :=
  if resume then match cp with | none => 0 | some l => l + 1 else 0

/-- Modelled from the spec: `EmbeddingService.process_embeddings_from_db`
(declared in src/TECHNICAL_DOCUMENTATION.md, implementation not in this
snapshot) — process the chunks of the document in stable ordinal order from the
start index, upserting one embedding per chunk and advancing the checkpoint
after each success.  `f` gives the deterministic provider vector for each
chunk ordinal and `n` is the chunk count of the document; the run returns the
final state together with the list of ordinals it processed. -/
def embed_document (f : Nat → Nat) (n : Nat) (resume : Bool) (st : RunState) :
    RunState × List Nat :=
  let s := startIndex resume st.checkpoint
  let todo := List.range' s (n - s)
  (todo.foldl (embedStep f) st, todo)

/-- an embedding run over a document, interrupted (crash or cancellation)
after its first `k` chunks succeeded, started from a fresh state -/
def interrupted_run (f : Nat → Nat) (k : Nat) : RunState :=
  (List.range' 0 k).foldl (embedStep f) ⟨[], none⟩

theorem upsert_fresh (s : List (Nat × Nat)) (i v : Nat)
    (h : ∀ p ∈ s, p.1 ≠ i) : upsert s i v = s ++ [(i, v)] := by
  have hany : s.any (fun p => p.1 == i) = false := by
    rw [List.any_eq_false]
    intro p hp
    simp only [beq_iff_eq]
    exact h p hp
  simp [upsert, hany]

theorem foldl_embedStep_store (f : Nat → Nat) :
    ∀ (m s : Nat) (st : RunState), (∀ p ∈ st.store, p.1 < s) →
      ((List.range' s m).foldl (embedStep f) st).store
        = st.store ++ (List.range' s m).map (fun i => (i, f i)) := by
  intro m
  induction m with
  | zero => intro s st _; simp
  | succ m ih =>
    intro s st h
    rw [List.range'_succ, List.foldl_cons, List.map_cons]
    have hstep : (embedStep f st s).store = st.store ++ [(s, f s)] := by
      simpa [embedStep] using upsert_fresh st.store s (f s) (fun p hp => Nat.ne_of_lt (h p hp))
    have hall : ∀ p ∈ (embedStep f st s).store, p.1 < s + 1 := by
      intro p hp
      rw [hstep] at hp
      rcases List.mem_append.mp hp with hp1 | hp2
      · exact Nat.lt_succ_of_lt (h p hp1)
      · rcases List.mem_singleton.mp hp2 with rfl
        exact Nat.lt_succ_self s
    rw [ih (s + 1) (embedStep f st s) hall, hstep, List.append_assoc, List.singleton_append]

theorem foldl_embedStep_checkpoint (f : Nat → Nat) :
    ∀ (m s : Nat) (st : RunState), 0 < m →
      ((List.range' s m).foldl (embedStep f) st).checkpoint = some (s + m - 1) := by
  intro m
  induction m with
  | zero => intro s st h; omega
  | succ m ih =>
    intro s st _
    rw [List.range'_succ, List.foldl_cons]
    cases Nat.eq_zero_or_pos m with
    | inl h0 => subst h0; simp [embedStep]
    | inr hpos =>
      rw [ih (s + 1) _ hpos]
      congr 1
      omega

theorem startIndex_false (cp : Option Nat) : startIndex false cp = 0 := rfl

theorem interrupted_run_store (f : Nat → Nat) (k : Nat) :
    (interrupted_run f k).store = (List.range k).map (fun i => (i, f i)) := by
  unfold interrupted_run
  rw [foldl_embedStep_store f k 0 ⟨[], none⟩ (by intro p hp; simp at hp)]
  simp [List.range_eq_range']

theorem interrupted_run_startIndex (f : Nat → Nat) (k : Nat) :
    startIndex true (interrupted_run f k).checkpoint = k := by
  cases k with
  | zero => simp [interrupted_run, startIndex]
  | succ m =>
    unfold interrupted_run
    rw [foldl_embedStep_checkpoint f (m + 1) 0 ⟨[], none⟩ (Nat.succ_pos m)]
    simp [startIndex]

/-- Claim C1: resuming `embed_document` after an interruption mid-run yields
exactly one Embedding per Chunk (no duplicates), the final embedded set
equals that of an uninterrupted run, resumption starts at
checkpoint.last_ordinal + 1, and already-embedded chunks are never
re-embedded. -/
theorem C1_embed_resume (f : Nat → Nat) (n k : Nat) (hk : k ≤ n) :
    (embed_document f n true (interrupted_run f k)).1.store.map Prod.fst = List.range n
    ∧ (embed_document f n true (interrupted_run f k)).1.store
        = (embed_document f n false ⟨[], none⟩).1.store
    ∧ (embed_document f n true (interrupted_run f k)).2 = List.range' k (n - k)
    ∧ ∀ i ∈ (embed_document f n true (interrupted_run f k)).2,
        ∀ p ∈ (interrupted_run f k).store, p.1 ≠ i := by
  have hkeys : ∀ p ∈ (interrupted_run f k).store, p.1 < k := by
    intro p hp
    rw [interrupted_run_store] at hp
    rcases List.mem_map.mp hp with ⟨i, hi, rfl⟩
    simpa using List.mem_range.mp hi
  have hsplit : List.range' 0 k ++ List.range' k (n - k) = List.range' 0 n := by
    have h := List.range'_append_1 0 k (n - k)
    rw [Nat.zero_add] at h
    rw [h]
    congr 1
    omega
  have hresumed : (embed_document f n true (interrupted_run f k)).1.store
      = (List.range n).map (fun i => (i, f i)) := by
    unfold embed_document
    dsimp only
    rw [interrupted_run_startIndex]
    rw [foldl_embedStep_store f (n - k) k _ hkeys, interrupted_run_store]
    rw [← List.map_append, List.range_eq_range', List.range_eq_range', hsplit]
  refine ⟨?_, ?_, ?_, ?_⟩
  · rw [hresumed, List.map_map]
    show List.map id (List.range n) = List.range n
    exact List.map_id _
  · rw [hresumed]
    unfold embed_document
    dsimp only
    rw [startIndex_false]
    rw [foldl_embedStep_store f (n - 0) 0 ⟨[], none⟩ (by intro p hp; simp at hp)]
    rw [List.range_eq_range']
    simp
  · unfold embed_document
    dsimp only
    rw [interrupted_run_startIndex]
  · intro i hi p hp
    unfold embed_document at hi
    dsimp only at hi
    rw [interrupted_run_startIndex] at hi
    have hik : k ≤ i := (List.mem_range'_1.mp hi).1
    have := hkeys p hp
    omega

/-- a concrete deterministic embedding provider for the witness run -/
def exampleVec (i : Nat) : Nat := i + 100

/-- Claim C1 witness: a five-chunk document interrupted after two chunks and
resumed ends with exactly one embedding per chunk ordinal 0..4, in order. -/
theorem C1_embed_resume_witness :
    (2 : Nat) ≤ 5 ∧ (embed_document exampleVec 5 true
      (interrupted_run exampleVec 2)).1.store.map Prod.fst = List.range 5 :=
  ⟨by decide, (C1_embed_resume exampleVec 5 2 (by decide)).1⟩

/-! ## Embedding run completion and document readiness (spec §4.3, §3) -/

/-- terminal state of a chunk within an embedding run -/
inductive CState
  | pending
  | embedded
  | failed
  deriving Repr, DecidableEq

/-- document lifecycle statuses involved in the embedding run -/
inductive DStatus
  | embedding
  | ready
  | error
  deriving Repr, DecidableEq

/-- a document during its embedding run: lifecycle status and, for each
chunk it owns, the run state of the chunk together with the number of embeddings
stored for the (chunk, active provider) pair -/
structure DocRun where
  status : DStatus
  chunks : List (CState × Nat)
  deriving Repr, DecidableEq

/-- Modelled from the spec: the transitions of a document embedding run —
a pending chunk is embedded (the write upserts, so the pair holds exactly
one embedding), a pending chunk exhausts its retries and is marked failed,
and the run completes: the document moves to ready only when every chunk is
embedded, and to error when every chunk is terminal and at least one
failed. -/
inductive RunStep : DocRun → DocRun → Prop
  | embedOk (d : DocRun) (i m : Nat)
      (h : d.chunks[i]? = some (CState.pending, m)) :
      RunStep d ⟨d.status, d.chunks.set i (CState.embedded, 1)⟩
  | embedFailed (d : DocRun) (i m : Nat)
      (h : d.chunks[i]? = some (CState.pending, m)) :
      RunStep d ⟨d.status, d.chunks.set i (CState.failed, m)⟩
  | finishOk (d : DocRun)
      (h : ∀ c ∈ d.chunks, c.1 = CState.embedded)
      (hs : d.status = DStatus.embedding) :
      RunStep d ⟨DStatus.ready, d.chunks⟩
  | finishFailed (d : DocRun)
      (h : ∀ c ∈ d.chunks, c.1 ≠ CState.pending)
      (hf : ∃ c ∈ d.chunks, c.1 = CState.failed)
      (hs : d.status = DStatus.embedding) :
      RunStep d ⟨DStatus.error, d.chunks⟩

/-- states reachable from the start of an embedding run over a document
with `n` chunks, none embedded yet for the active provider -/
inductive ReachableRun : DocRun → Prop
  | init (n : Nat) :
      ReachableRun ⟨DStatus.embedding, List.replicate n (CState.pending, 0)⟩
  | step {d d' : DocRun} : ReachableRun d → RunStep d d' → ReachableRun d'

theorem reachable_embedded_count {d : DocRun} (hreach : ReachableRun d) :
    ∀ c ∈ d.chunks, c.1 = CState.embedded → c.2 = 1 := by
  induction hreach with
  | init n =>
    intro c hc he
    rcases List.eq_of_mem_replicate hc with rfl
    cases he
  | step hd hstep ih =>
    cases hstep with
    | embedOk i m h =>
      intro c hc he
      rcases List.mem_or_eq_of_mem_set hc with hc1 | rfl
      · exact ih c hc1 he
      · rfl
    | embedFailed i m h =>
      intro c hc he
      rcases List.mem_or_eq_of_mem_set hc with hc1 | rfl
      · exact ih c hc1 he
      · cases he
    | finishOk h hs => exact ih
    | finishFailed h hf hs => exact ih

theorem reachable_ready_all_embedded {d : DocRun} (hreach : ReachableRun d) :
    d.status = DStatus.ready → ∀ c ∈ d.chunks, c.1 = CState.embedded ∧ c.2 = 1 := by
  induction hreach with
  | init n => intro h; cases h
  | step hd hstep ih =>
    cases hstep with
    | embedOk i m h =>
      intro hst c hc
      have hpending := List.getElem?_mem h
      have h2 := (ih hst (CState.pending, m) hpending).1
      cases h2
    | embedFailed i m h =>
      intro hst c hc
      have hpending := List.getElem?_mem h
      have h2 := (ih hst (CState.pending, m) hpending).1
      cases h2
    | finishOk h hs =>
      intro _ c hc
      exact ⟨h c hc, reachable_embedded_count hd c hc (h c hc)⟩
    | finishFailed h hf hs => intro hst; cases hst

/-- Claim C3: in every reachable state of an embedding run, a document in
ready status has exactly one embedding for the active provider on each
chunk it owns, and a run step moves a document to ready only when none of
its chunks is failed. -/
theorem C3_ready_invariant (d d' : DocRun) (c : CState × Nat)
    (hreach : ReachableRun d) :
    (d.status = DStatus.ready → c ∈ d.chunks →
      c.1 = CState.embedded ∧ c.2 = 1)
    ∧ (RunStep d d' → d'.status = DStatus.ready → d.status ≠ DStatus.ready →
      c ∈ d.chunks → c.1 ≠ CState.failed) := by
  constructor
  · intro hst hc
    exact reachable_ready_all_embedded hreach hst c hc
  · intro hstep hst' hst hc
    cases hstep with
    | embedOk i m h => exact absurd hst' hst
    | embedFailed i m h => exact absurd hst' hst
    | finishOk h hs =>
      rw [h c hc]
      intro hcontra
      cases hcontra
    | finishFailed h hf hs => cases hst'

/-- Claim C3 witness: a one-chunk document embedded and completed reaches
ready with exactly one embedding on its chunk. -/
theorem C3_ready_invariant_witness :
    (DStatus.ready = DStatus.ready →
        (CState.embedded, 1) ∈ (⟨DStatus.ready, [(CState.embedded, 1)]⟩ : DocRun).chunks →
        (CState.embedded, 1).1 = CState.embedded ∧ (CState.embedded, 1).2 = 1)
    ∧ (RunStep ⟨DStatus.ready, [(CState.embedded, 1)]⟩ ⟨DStatus.ready, [(CState.embedded, 1)]⟩ →
        DStatus.ready = DStatus.ready → DStatus.ready ≠ DStatus.ready →
        (CState.embedded, 1) ∈ (⟨DStatus.ready, [(CState.embedded, 1)]⟩ : DocRun).chunks →
        (CState.embedded, 1).1 ≠ CState.failed) :=
  C3_ready_invariant ⟨DStatus.ready, [(CState.embedded, 1)]⟩
    ⟨DStatus.ready, [(CState.embedded, 1)]⟩ (CState.embedded, 1)
    (ReachableRun.step
      (ReachableRun.step (ReachableRun.init 1)
        (RunStep.embedOk ⟨DStatus.embedding, [(CState.pending, 0)]⟩ 0 0 rfl))
      (RunStep.finishOk ⟨DStatus.embedding, [(CState.embedded, 1)]⟩ (by decide) rfl))

/-! ## Retrieval Engine (spec §4.4) -/

/-- a stored chunk embedding within the retrieval scope: owning document,
chunk ordinal, citation metadata, vector -/
structure StoredEmb where
  docId : Nat
  ordinal : Nat
  sectionTitle : String
  vec : List Rat
  deriving Repr, DecidableEq

/-- dot product of two vectors -/
def dot (a b : List Rat) : Rat := (List.zipWith (· * ·) a b).sum

/-- Modelled from the spec: cosine similarity between the query vector and a
stored vector.  Square roots are not rational, so the score divides the dot
product by the product of the squared norms (zero for a zero vector); the
ranking properties proved below hold for any fixed score function. -/
def cosineScore (q v : List Rat) : Rat :=
  if dot q q * dot v v = 0 then 0 else dot q v / (dot q q * dot v v)

/-- the ranking order on (chunk ordinal, score) pairs: higher score first,
ties broken by ascending chunk ordinal -/
def rankLE (a b : Nat × Rat) : Prop :=
  b.2 < a.2 ∨ (a.2 = b.2 ∧ a.1 ≤ b.1)

/-- the strict ranking order: strictly lower score, or equal score and
strictly larger ordinal, for each later element -/
def rankStrict (a b : Nat × Rat) : Prop :=
  b.2 < a.2 ∨ (a.2 = b.2 ∧ a.1 < b.1)

instance rankLE.decRel : DecidableRel rankLE := fun a b =>
  decidable_of_iff (b.2 < a.2 ∨ (a.2 = b.2 ∧ a.1 ≤ b.1)) Iff.rfl

instance rankLE.total : IsTotal (Nat × Rat) rankLE where
  total a b := by
    rcases lt_trichotomy a.2 b.2 with h | h | h
    · exact Or.inr (Or.inl h)
    · rcases Nat.le_total a.1 b.1 with ho | ho
      · exact Or.inl (Or.inr ⟨h, ho⟩)
      · exact Or.inr (Or.inr ⟨h.symm, ho⟩)
    · exact Or.inl (Or.inl h)

instance rankLE.trans : IsTrans (Nat × Rat) rankLE where
  trans a b c hab hbc := by
    rcases hab with h1 | ⟨h1e, h1o⟩
    · rcases hbc with h2 | ⟨h2e, h2o⟩
      · exact Or.inl (h2.trans h1)
      · exact Or.inl (h2e ▸ h1)
    · rcases hbc with h2 | ⟨h2e, h2o⟩
      · exact Or.inl (lt_of_lt_of_eq h2 h1e.symm)
      · exact Or.inr ⟨h1e.trans h2e, h1o.trans h2o⟩

/-- Modelled from the spec: `retrieve(query_text, document_scope, top_k)` —
score every embedding within the scope against the query, sort descending
by score breaking ties by ascending chunk ordinal, and select up to top_k
(context token budgeting and citation assembly are downstream of the
ranking this claim concerns). -/
def retrieve (q : List Rat) (scope : List StoredEmb) (topK : Nat) :
    List (Nat × Rat) :=
  (List.insertionSort rankLE
    (scope.map (fun e => (e.ordinal, cosineScore q e.vec)))).take topK

/-- Claim C4: the sequence returned by retrieve is sorted by non-increasing
similarity score, with equal scores ordered by ascending chunk ordinal, so
the output order is deterministic for a fixed set of stored embeddings. -/
theorem C4_retrieve_sorted (q : List Rat) (scope : List StoredEmb) (topK : Nat)
    (hord : (scope.map StoredEmb.ordinal).Nodup) :
    List.Pairwise rankStrict (retrieve q scope topK) := by
  have hsorted : List.Pairwise rankLE
      (List.insertionSort rankLE (scope.map (fun e => (e.ordinal, cosineScore q e.vec)))) :=
    List.sorted_insertionSort rankLE _
  have hne : List.Pairwise (fun a b : Nat × Rat => a.1 ≠ b.1)
      (scope.map (fun e => (e.ordinal, cosineScore q e.vec))) := by
    rw [List.pairwise_map]
    have h2 : List.Pairwise (fun a b : StoredEmb => a.ordinal ≠ b.ordinal) scope := by
      have h3 : List.Pairwise (fun a b : Nat => a ≠ b) (scope.map StoredEmb.ordinal) := hord
      exact List.pairwise_map.mp h3
    exact h2.imp (fun h => h)
  have hne2 : List.Pairwise (fun a b : Nat × Rat => a.1 ≠ b.1)
      (List.insertionSort rankLE (scope.map (fun e => (e.ordinal, cosineScore q e.vec)))) := by
    refine ((List.perm_insertionSort rankLE _).pairwise_iff ?_).mpr hne
    intro x y h
    exact h.symm
  have hboth := hsorted.and hne2
  have hstrict : List.Pairwise rankStrict
      (List.insertionSort rankLE (scope.map (fun e => (e.ordinal, cosineScore q e.vec)))) := by
    refine hboth.imp ?_
    intro a b hab
    rcases hab with ⟨h1 | ⟨h1e, h1o⟩, hne3⟩
    · exact Or.inl h1
    · exact Or.inr ⟨h1e, Nat.lt_of_le_of_ne h1o hne3⟩
  exact hstrict.sublist (List.take_sublist topK _)

/-- a concrete retrieval scope for the witness -/
def exampleScope : List StoredEmb :=
  [⟨1, 0, "Intro", [1, 0]⟩, ⟨1, 1, "Results", [0, 1]⟩, ⟨1, 2, "Intro", [1, 1]⟩]

/-- Claim C4 witness: a concrete scope with distinct ordinals yields a
strictly rank-sorted retrieval result. -/
theorem C4_retrieve_sorted_witness :
    (exampleScope.map StoredEmb.ordinal).Nodup
    ∧ List.Pairwise rankStrict (retrieve [1, 1] exampleScope 5) :=
  ⟨by decide, C4_retrieve_sorted [1, 1] exampleScope 5 (by decide)⟩

/-! ## Embedding retry policy (spec §4.3 retry, §7 error taxonomy) -/

/-- kinds of embedding call failure (spec §7) -/
inductive EmbedFailure
  | timeout
  | rateLimited
  | transientNetwork
  | malformedInput
  | misconfigured
  deriving Repr, DecidableEq

/-- Modelled from the spec: only timeout, rate-limit and transient network
failures are transient; malformed input and provider misconfiguration are
structural. -/
def transientFailure : EmbedFailure → Bool
  | .timeout => true
  | .rateLimited => true
  | .transientNetwork => true
  | .malformedInput => false
  | .misconfigured => false

/-- outcome of a single embedding attempt against the provider -/
inductive AttemptOutcome
  | success (vec : Nat)
  | failure (e : EmbedFailure)
  deriving Repr, DecidableEq

/-- whether an attempt outcome is a transient failure -/
def isTransientFailure : AttemptOutcome → Bool
  | .success _ => false
  | .failure e => transientFailure e

/-- Modelled from the spec: the retry loop around one embedding call —
`outcomes` gives the provider outcome of each attempt, `i` is the index of
the next attempt and the last argument the remaining attempt budget.  A
success returns the vector; a transient failure is retried while budget
remains (and surfaced once the budget is exhausted); a structural failure
fails fast.  Returns the number of attempts made and the result. -/
def retryFrom (outcomes : Nat → AttemptOutcome) :
    Nat → Nat → Nat × Except EmbedFailure Nat
  | _, 0 => (0, Except.error EmbedFailure.transientNetwork)
  | i, left + 1 =>
    match outcomes i with
    | .success v => (1, Except.ok v)
    | .failure e =>
      if transientFailure e then
        if left = 0 then (1, Except.error e)
        else
          let r := retryFrom outcomes (i + 1) left
          (r.1 + 1, r.2)
      else (1, Except.error e)

/-- Modelled from the spec: each embedding call is attempted up to the
configured maximum number of attempts. -/
def retry_embed (outcomes : Nat → AttemptOutcome) (maxAttempts : Nat) :
    Nat × Except EmbedFailure Nat :=
  retryFrom outcomes 0 maxAttempts

theorem retryFrom_attempts_le (outcomes : Nat → AttemptOutcome) :
    ∀ (left i : Nat), (retryFrom outcomes i left).1 ≤ left := by
  intro left
  induction left with
  | zero => intro i; simp [retryFrom]
  | succ m ih =>
    intro i
    rw [retryFrom]
    cases houtcome : outcomes i with
    | success v => simp
    | failure e =>
      dsimp only
      split
      · split
        · simp
        · have h := ih (i + 1)
          dsimp only
          omega
      · simp

theorem retryFrom_retried_transient (outcomes : Nat → AttemptOutcome) :
    ∀ (left i j : Nat), j + 1 < (retryFrom outcomes i left).1 →
      isTransientFailure (outcomes (i + j)) = true := by
  intro left
  induction left with
  | zero => intro i j h; simp [retryFrom] at h
  | succ m ih =>
    intro i j h
    rw [retryFrom] at h
    cases houtcome : outcomes i with
    | success v => rw [houtcome] at h; simp at h
    | failure e =>
      rw [houtcome] at h
      dsimp only at h
      by_cases htr : transientFailure e
      · rw [if_pos htr] at h
        by_cases hm : m = 0
        · rw [if_pos hm] at h; simp at h
        · rw [if_neg hm] at h
          dsimp only at h
          cases j with
          | zero =>
            simp only [Nat.add_zero, houtcome, isTransientFailure]
            exact htr
          | succ j' =>
            have h2 : j' + 1 < (retryFrom outcomes (i + 1) m).1 := by omega
            have h3 := ih (i + 1) j' h2
            have harith : i + 1 + j' = i + (j' + 1) := by omega
            rw [harith] at h3
            exact h3
      · rw [if_neg htr] at h
        simp at h

/-- Claim C5: only transient failure kinds (timeout, rate-limit, transient
network) are retried, at most the configured maximum number of attempts is
made, and structural failures (malformed input, provider misconfiguration)
fail on the first attempt without consuming retry budget. -/
theorem C5_retry_policy (outcomes : Nat → AttemptOutcome) (maxAttempts j : Nat)
    (e : EmbedFailure) :
    (retry_embed outcomes maxAttempts).1 ≤ maxAttempts
    ∧ (j + 1 < (retry_embed outcomes maxAttempts).1 →
        isTransientFailure (outcomes j) = true)
    ∧ (0 < maxAttempts → outcomes 0 = AttemptOutcome.failure e →
        transientFailure e = false →
        retry_embed outcomes maxAttempts = (1, Except.error e)) := by
  refine ⟨retryFrom_attempts_le outcomes maxAttempts 0, ?_, ?_⟩
  · intro h
    have h2 := retryFrom_retried_transient outcomes maxAttempts 0 j h
    rwa [Nat.zero_add] at h2
  · intro hpos houtcome hstruct
    unfold retry_embed
    cases maxAttempts with
    | zero => omega
    | succ m =>
      rw [retryFrom, houtcome]
      dsimp only
      rw [if_neg (by rw [hstruct]; exact Bool.false_ne_true)]

/-- a provider whose first call hits a structural misconfiguration -/
def retryOutcomes : Nat → AttemptOutcome := fun n =>
  if n = 0 then AttemptOutcome.failure EmbedFailure.misconfigured
  else AttemptOutcome.success 7

/-- Claim C5 witness: with an 8-attempt budget, a misconfigured provider
fails on the first attempt and the attempt count stays within the budget. -/
theorem C5_retry_policy_witness :
    (retry_embed retryOutcomes 8).1 ≤ 8
    ∧ retry_embed retryOutcomes 8 = (1, Except.error EmbedFailure.misconfigured) :=
  ⟨(C5_retry_policy retryOutcomes 8 0 EmbedFailure.misconfigured).1,
   (C5_retry_policy retryOutcomes 8 0 EmbedFailure.misconfigured).2.2 (by decide) rfl rfl⟩

/-! ## Extraction Coordinator (spec §4.1, §7) -/

/-- extraction failure kinds (spec §7) -/
inductive ExtFailKind
  | unsupportedFormat
  | corruptInput
  | timeout
  deriving Repr, DecidableEq

/-- Modelled from the spec: specificity order of extraction failure reasons
(timeout vs. corrupt vs. unsupported, most specific first). -/
def specificity : ExtFailKind → Nat
  | .timeout => 2
  | .corruptInput => 1
  | .unsupportedFormat => 0

/-- the more specific of two failure reasons (the first on ties) -/
def moreSpecific (a b : ExtFailKind) : ExtFailKind :=
  if specificity b ≤ specificity a then a else b

/-- whether a stage outcome is a success -/
def stageOk : Except ExtFailKind String → Bool
  | .ok _ => true
  | .error _ => false

/-- environment of one extraction: the outcome each of the three stages
(primary structural extractor, cloud OCR fallback, direct byte-to-text
read) would produce if attempted, and whether the source is plain/markup
text -/
structure ExtractEnv where
  primary : Except ExtFailKind String
  ocr : Except ExtFailKind String
  raw : Except ExtFailKind String
  isPlainText : Bool

/-- Modelled from the spec: `DocumentProcessor.extract_document` (declared
in src/TECHNICAL_DOCUMENTATION.md, implementation not in this snapshot) —
attempt the primary structural extractor; on failure attempt the cloud OCR
fallback; if both fail and the source is plain/markup text attempt a direct
byte-to-text read; when every attempted stage fails, return the most
specific failure reason. -/
def extract (env : ExtractEnv) : Except ExtFailKind String :=
  match env.primary with
  | .ok t => .ok t
  | .error e1 =>
    match env.ocr with
    | .ok t => .ok t
    | .error e2 =>
      match env.isPlainText with
      | true =>
        match env.raw with
        | .ok t => .ok t
        | .error e3 => .error (moreSpecific (moreSpecific e1 e2) e3)
      | false => .error (moreSpecific e1 e2)

/-- the failure kind of a failed stage outcome, as a list -/
def failKind : Except ExtFailKind String → List ExtFailKind
  | .ok _ => []
  | .error e => [e]

/-- the failure kinds of the stages the extraction would attempt -/
def attemptedFailKinds (env : ExtractEnv) : List ExtFailKind :=
  failKind env.primary ++ failKind env.ocr
    ++ (match env.isPlainText with
        | true => failKind env.raw
        | false => [])

theorem moreSpecific_eq_or (a b : ExtFailKind) :
    moreSpecific a b = a ∨ moreSpecific a b = b := by
  unfold moreSpecific
  split
  · exact Or.inl rfl
  · exact Or.inr rfl

theorem specificity_le_moreSpecific_left (a b : ExtFailKind) :
    specificity a ≤ specificity (moreSpecific a b) := by
  unfold moreSpecific
  split
  · exact Nat.le_refl _
  · omega

theorem specificity_le_moreSpecific_right (a b : ExtFailKind) :
    specificity b ≤ specificity (moreSpecific a b) := by
  unfold moreSpecific
  split
  · omega
  · exact Nat.le_refl _

/-- Claim C7: extract tries primary, then cloud OCR, then (for plain/markup
sources) a direct byte read; it returns an ExtractionError only when every
attempted stage has failed, and the returned error is the most specific of
the attempted failure reasons, so intermediate-stage failures are never
surfaced. -/
theorem C7_extract_fallback (env : ExtractEnv) (e k : ExtFailKind)
    (h : extract env = Except.error e) :
    stageOk env.primary = false
    ∧ stageOk env.ocr = false
    ∧ (env.isPlainText = true → stageOk env.raw = false)
    ∧ e ∈ attemptedFailKinds env
    ∧ (k ∈ attemptedFailKinds env → specificity k ≤ specificity e) := by
  obtain ⟨p, o, r, txt⟩ := env
  cases p with
  | ok t => simp [extract] at h
  | error e1 =>
    cases o with
    | ok t => simp [extract] at h
    | error e2 =>
      cases txt with
      | false =>
        simp only [extract] at h
        have he : e = moreSpecific e1 e2 := (Except.error.injEq _ _).mp h.symm
        subst he
        refine ⟨rfl, rfl, ?_, ?_, ?_⟩
        · intro hcontra
          simp at hcontra
        · simp only [attemptedFailKinds, failKind]
          rcases moreSpecific_eq_or e1 e2 with heq | heq <;> rw [heq] <;> simp
        · intro hk
          simp only [attemptedFailKinds, failKind, List.append_nil, List.mem_append,
            List.mem_singleton] at hk
          rcases hk with hk1 | hk1
          · rw [hk1]; exact specificity_le_moreSpecific_left e1 e2
          · rw [hk1]; exact specificity_le_moreSpecific_right e1 e2
      | true =>
        cases r with
        | ok t => simp [extract] at h
        | error e3 =>
          simp only [extract] at h
          have he : e = moreSpecific (moreSpecific e1 e2) e3 :=
            (Except.error.injEq _ _).mp h.symm
          subst he
          refine ⟨rfl, rfl, fun _ => rfl, ?_, ?_⟩
          · simp only [attemptedFailKinds, failKind]
            rcases moreSpecific_eq_or (moreSpecific e1 e2) e3 with heq | heq
            · rcases moreSpecific_eq_or e1 e2 with heq2 | heq2 <;>
                rw [heq, heq2] <;> simp
            · rw [heq]; simp
          · intro hk
            simp only [attemptedFailKinds, failKind, List.mem_append,
              List.mem_singleton] at hk
            rcases hk with (hk1 | hk1) | hk1
            · rw [hk1]
              exact Nat.le_trans (specificity_le_moreSpecific_left e1 e2)
                (specificity_le_moreSpecific_left (moreSpecific e1 e2) e3)
            · rw [hk1]
              exact Nat.le_trans (specificity_le_moreSpecific_right e1 e2)
                (specificity_le_moreSpecific_left (moreSpecific e1 e2) e3)
            · rw [hk1]
              exact specificity_le_moreSpecific_right (moreSpecific e1 e2) e3

/-- an extraction on a plain-text source in which every stage fails -/
def exampleEnv : ExtractEnv :=
  ⟨Except.error ExtFailKind.timeout, Except.error ExtFailKind.unsupportedFormat,
    Except.error ExtFailKind.corruptInput, true⟩

/-- Claim C7 witness: with a primary timeout, an unsupported OCR pass and a
corrupt raw read, extract fails carrying the most specific reason. -/
theorem C7_extract_fallback_witness :
    stageOk exampleEnv.primary = false
    ∧ stageOk exampleEnv.ocr = false
    ∧ (exampleEnv.isPlainText = true → stageOk exampleEnv.raw = false)
    ∧ ExtFailKind.timeout ∈ attemptedFailKinds exampleEnv
    ∧ (ExtFailKind.corruptInput ∈ attemptedFailKinds exampleEnv →
        specificity ExtFailKind.corruptInput ≤ specificity ExtFailKind.timeout) :=
  C7_extract_fallback exampleEnv ExtFailKind.timeout ExtFailKind.corruptInput rfl

/-! ## Document lifecycle statuses (frontend code) -/

/-- the document status values of the frontend TypeScript union type
(src/frontend/src/components/AntdPatchProvider.tsx, field `status` of
`Document`), which are also the `statusConfig` keys and the status filter
values of the documents page -/
def documentStatusValues : List String :=
  ["not processed", "extracted", "chunked", "processed"]

/-- the eight lifecycle status values listed by the spec (spec §3) -/
def specLifecycleStatuses : List String :=
  ["unprocessed", "extracting", "extracted", "chunking", "chunked",
    "embedding", "ready", "error"]

/-- the pipeline actions of the documents page with the status gating of
their buttons (src/frontend/src/app/documents/page.tsx: extract offered on
a not-processed document, chunk enabled on an extracted one, embed enabled
on a chunked one), each producing the status its completed stage renders -/
def actionResult (action status : String) : Option String :=
  if action = "extract" ∧ status = "not processed" then some "extracted"
  else if action = "chunk" ∧ status = "extracted" then some "chunked"
  else if action = "embed" ∧ status = "chunked" then some "processed"
  else none

/-- position of a status in the processing order -/
def statusIndex (s : String) : Nat := documentStatusValues.indexOf s

/-- Claim C6 counterexample: the status vocabulary of the code is
"not processed" | "extracted" | "chunked" | "processed"; the value
"processed" the code uses is not among the eight lifecycle values the claim
lists. -/
theorem C6_status_counterexample :
    "processed" ∈ documentStatusValues ∧ "processed" ∉ specLifecycleStatuses := by
  constructor
  · decide
  · decide

/-- Claim C6 amended: every document status is one of the four values
"not processed", "extracted", "chunked", "processed", and each pipeline
action (extract, chunk, embed) advances a document one position through
that order. -/
theorem C6_status_progression (a s s2 : String)
    (h : actionResult a s = some s2) :
    s ∈ documentStatusValues ∧ s2 ∈ documentStatusValues
    ∧ statusIndex s2 = statusIndex s + 1 := by
  unfold actionResult at h
  split_ifs at h with h1 h2 h3
  · obtain ⟨-, hs⟩ := h1
    obtain hs2 := (Option.some.injEq _ _).mp h
    rw [hs, ← hs2]
    refine ⟨by decide, by decide, by decide⟩
  · obtain ⟨-, hs⟩ := h2
    obtain hs2 := (Option.some.injEq _ _).mp h
    rw [hs, ← hs2]
    refine ⟨by decide, by decide, by decide⟩
  · obtain ⟨-, hs⟩ := h3
    obtain hs2 := (Option.some.injEq _ _).mp h
    rw [hs, ← hs2]
    refine ⟨by decide, by decide, by decide⟩

/-- Claim C6 witness: the extract action advances a not-processed document
to extracted, one position along the status order. -/
theorem C6_status_progression_witness :
    actionResult "extract" "not processed" = some "extracted"
    ∧ ("not processed" ∈ documentStatusValues
        ∧ "extracted" ∈ documentStatusValues
        ∧ statusIndex "extracted" = statusIndex "not processed" + 1) :=
  ⟨by decide, C6_status_progression "extract" "not processed" "extracted" (by decide)⟩

/-! ## Chat page send guard (src/frontend/src/app/chat/page.tsx) -/

/-- a document as the chat page sees it -/
structure DocRecord where
  id : Nat
  original_filename : String
  status : String
  deriving Repr, DecidableEq

/-- a chat message held in the page state: text and whether it came from
the user -/
structure PageMessage where
  message : String
  isUser : Bool
  deriving Repr, DecidableEq

/-- the chat page state read and written by handleSendMessage -/
structure ChatState where
  messages : List PageMessage
  inputMessage : String
  loading : Bool
  selectedDocuments : List DocRecord
  deriving Repr, DecidableEq

/-- the outward effect of one handleSendMessage invocation -/
inductive SendEffect
  | noOp
  | localError
  | apiSend (message : String) (document_ids : List Nat)
  deriving Repr, DecidableEq

/-- JavaScript String.prototype.trim, modelled over the character list
(whitespace stripped from both ends) -/
def jsTrim (s : String) : String :=
  ⟨((s.data.dropWhile Char.isWhitespace).reverse.dropWhile Char.isWhitespace).reverse⟩

/-- the error text built at chat/page.tsx line 124, naming the unprocessed
documents -/
def unprocessedErrorText (unprocessed : List DocRecord) : String :=
  "Some documents are still processing: "
    ++ String.intercalate ", " (unprocessed.map DocRecord.original_filename)
    ++ ". Please wait for processing to complete."

/-- handleSendMessage (chat/page.tsx lines 116-147), embedded up to the
point the chat API request is issued: the early-return guard, the
unprocessed-documents check that appends a local error message and returns,
and otherwise the state updates and the API call. -/
def handleSendMessage (st : ChatState) : ChatState × SendEffect :=
  if jsTrim st.inputMessage = "" ∨ st.loading = true ∨ st.selectedDocuments.length = 0 then
    (st, SendEffect.noOp)
  else
    let unprocessed := st.selectedDocuments.filter (fun d => d.status != "processed")
    if 0 < unprocessed.length then
      ({ st with messages := st.messages ++ [⟨unprocessedErrorText unprocessed, false⟩] },
        SendEffect.localError)
    else
      ({ st with
          messages := st.messages ++ [⟨st.inputMessage, true⟩],
          inputMessage := "",
          loading := true },
        SendEffect.apiSend st.inputMessage (st.selectedDocuments.map DocRecord.id))

/-- Claim C9: when a send attempt passes the basic guard (non-blank input,
not loading, documents selected) and some selected document is not
processed, no chat API request is issued; a local error message naming the
unprocessed documents is appended to the message list and the function
returns with input and loading state unchanged. -/
theorem C9_chat_send_guard (st : ChatState) (d : DocRecord)
    (h1 : ¬ jsTrim st.inputMessage = "")
    (h2 : st.loading = false)
    (h3 : st.selectedDocuments.length ≠ 0)
    (h4 : d ∈ st.selectedDocuments)
    (h5 : d.status ≠ "processed") :
    (handleSendMessage st).2 = SendEffect.localError
    ∧ (handleSendMessage st).1.messages = st.messages
        ++ [⟨unprocessedErrorText
              (st.selectedDocuments.filter (fun x => x.status != "processed")), false⟩]
    ∧ (handleSendMessage st).1.inputMessage = st.inputMessage
    ∧ (handleSendMessage st).1.loading = st.loading := by
  have hguard : ¬ (jsTrim st.inputMessage = "" ∨ st.loading = true
      ∨ st.selectedDocuments.length = 0) := by
    push_neg
    refine ⟨h1, ?_, h3⟩
    rw [h2]
    exact Bool.false_ne_true
  have hmem : d ∈ st.selectedDocuments.filter (fun x => x.status != "processed") := by
    rw [List.mem_filter]
    exact ⟨h4, by simpa using h5⟩
  have hpos : 0 < (st.selectedDocuments.filter (fun x => x.status != "processed")).length :=
    List.length_pos.mpr (List.ne_nil_of_mem hmem)
  unfold handleSendMessage
  rw [if_neg hguard]
  dsimp only
  rw [if_pos hpos]
  exact ⟨rfl, rfl, rfl, rfl⟩

/-- a chat page state with one selected, still-chunked document -/
def exampleChatState : ChatState :=
  ⟨[], "What is this about", false, [⟨3, "report.pdf", "chunked"⟩]⟩

/-- Claim C9 witness: a concrete send attempt on a still-processing
document appends the local error and changes neither input nor loading. -/
theorem C9_chat_send_guard_witness :
    (handleSendMessage exampleChatState).2 = SendEffect.localError
    ∧ (handleSendMessage exampleChatState).1.messages = exampleChatState.messages
        ++ [⟨unprocessedErrorText
              (exampleChatState.selectedDocuments.filter
                (fun x => x.status != "processed")), false⟩]
    ∧ (handleSendMessage exampleChatState).1.inputMessage = exampleChatState.inputMessage
    ∧ (handleSendMessage exampleChatState).1.loading = exampleChatState.loading :=
  C9_chat_send_guard exampleChatState ⟨3, "report.pdf", "chunked"⟩
    (by decide) rfl (by decide) (by decide) (by decide)

/-! ## Login API route (src/frontend/src/app/api/auth/login/route.ts) -/

/-- the login form fields read from the request form data; `none` when the
field is absent (formData.get returns null) -/
structure LoginForm where
  username : Option String
  password : Option String
  deriving Repr, DecidableEq

/-- a backend response: HTTP status and JSON body -/
structure BackendResp where
  status : Nat
  body : String
  deriving Repr, DecidableEq

/-- JavaScript falsiness of a form field string: absent or empty -/
def isBlank : Option String → Bool
  | none => true
  | some s => s == ""

/-- the POST handler of app/api/auth/login/route.ts: a falsy username or
password yields 400 without contacting the backend; otherwise the
credentials are forwarded and the backend JSON body is returned — with
the backend status when response.ok is false, and with the default
NextResponse.json status 200 when response.ok (status 200-299) is true; a thrown
fetch or JSON parse error yields 500.  The Boolean records whether the
backend was contacted. -/
def loginPOST (form : LoginForm) (backend : Option BackendResp) :
    (Nat × String) × Bool :=
  if isBlank form.username = true ∨ isBlank form.password = true then
    ((400, "Username and password are required"), false)
  else
    match backend with
    | none => ((500, "Internal server error"), true)
    | some r =>
      if 200 ≤ r.status ∧ r.status < 300 then ((200, r.body), true)
      else ((r.status, r.body), true)

/-- Claim C10 counterexample: with both credentials present, a successful
backend status other than 200 (here 201) is not returned unchanged — the
route responds with status 200. -/
theorem C10_login_counterexample :
    loginPOST ⟨some "admin", some "secret"⟩ (some ⟨201, "created"⟩)
      = ((200, "created"), true)
    ∧ (200 : Nat) ≠ 201 := by
  constructor
  · decide
  · decide

/-- Claim C10 amended: a request lacking a username or password (absent or
empty field) gets 400 with detail "Username and password are required" and
the backend is not contacted; with both fields present and non-empty the
credentials are forwarded and the backend JSON body is returned
unchanged, with the backend status code when it is not a 2xx success and
with status 200 when it is. -/
theorem C10_login_route (form : LoginForm) (r : BackendResp)
    (backend : Option BackendResp) :
    (isBlank form.username = true ∨ isBlank form.password = true →
      loginPOST form backend = ((400, "Username and password are required"), false))
    ∧ (isBlank form.username = false → isBlank form.password = false →
        (loginPOST form (some r)).1.2 = r.body
        ∧ (loginPOST form (some r)).2 = true
        ∧ (¬ (200 ≤ r.status ∧ r.status < 300) → (loginPOST form (some r)).1.1 = r.status)
        ∧ (200 ≤ r.status → r.status < 300 → (loginPOST form (some r)).1.1 = 200)) := by
  constructor
  · intro hblank
    unfold loginPOST
    rw [if_pos hblank]
  · intro hu hp
    have hcond : ¬ (isBlank form.username = true ∨ isBlank form.password = true) := by
      rw [hu, hp]
      simp
    unfold loginPOST
    rw [if_neg hcond]
    dsimp only
    by_cases hok : 200 ≤ r.status ∧ r.status < 300
    · rw [if_pos hok]
      exact ⟨rfl, rfl, fun hcontra => absurd hok hcontra, fun _ _ => rfl⟩
    · rw [if_neg hok]
      exact ⟨rfl, rfl, fun _ => rfl, fun ha hb => absurd ⟨ha, hb⟩ hok⟩

/-- Claim C10 witness: valid credentials with a backend 401 are forwarded
and the 401 body and status are returned unchanged. -/
theorem C10_login_route_witness :
    (loginPOST ⟨some "admin", some "pw"⟩ (some ⟨401, "bad credentials"⟩)).1.2
        = "bad credentials"
    ∧ (loginPOST ⟨some "admin", some "pw"⟩ (some ⟨401, "bad credentials"⟩)).1.1 = 401 :=
  have h := (C10_login_route ⟨some "admin", some "pw"⟩ ⟨401, "bad credentials"⟩
    (some ⟨401, "bad credentials"⟩)).2 rfl rfl
  ⟨h.1, h.2.2.1 (by decide)⟩

end Docling
